import Mathlib

/-
Verification of the code-block extraction and change-application pipeline of the
`nuclear` CLI assistant.

The definitions below are a shallow embedding of three source files:
  * `src/ai_assistant/cli/commands.py` — `CodeCommands._extract_code_blocks`,
    `CodeCommands._display_and_process_response`, `CodeCommands._apply_code_changes`,
    `CodeCommands._prepare_request`;
  * `src/ai_assistant/cli/interactive/command_handler.py` — `CommandHandler.handle`;
  * `src/ai_assistant/cli/interactive/stubs.py` — the stub collaborator calls.

Python strings are modelled as `List Char` (ASCII range; `\w`, `str.strip`,
`str.split`, `str.lower` are modelled for the ASCII subset).  External
collaborators (the file service, the git utilities, the session actions and the
interactive confirmations) are modelled as explicit oracle parameters; console
output and collaborator calls are recorded as data so that frame properties can
be stated.  Rendering-only behaviour (rich panels, diff display) is not
modelled beyond the recorded messages.
-/

/-- Python ASCII whitespace, as used by `str.strip()` and `str.split()`. -/
def isPySpace (c : Char) : Bool :=
  c = ' ' || c = '\t' || c = '\n' || c = '\r' || c = '\x0b' || c = '\x0c'

/-- Python `str.strip()`: remove leading and trailing whitespace. -/
def pyStrip (l : List Char) : List Char :=
  ((l.dropWhile isPySpace).reverse.dropWhile isPySpace).reverse

/-- Python `str.lower()`, character by character (ASCII model). -/
def pyLower (l : List Char) : List Char := l.map Char.toLower

/-- Python regex `\w` for the ASCII range: letters, digits and underscore. -/
def isWordChar (c : Char) : Bool := c.isAlphanum || c = '_'

/-- The backtick character. -/
def btick : Char := Char.ofNat 96

/-- The literal three-backtick fence marker of the extraction regex. -/
def fenceMarker : List Char := [btick, btick, btick]

/-- Helper for `pySplit`: accumulate the current token (reversed) while
scanning. -/
def pySplitAux : List Char → List Char → List (List Char)
  | acc, [] => if acc.isEmpty then [] else [acc.reverse]
  | acc, c :: cs =>
    if isPySpace c then
      if acc.isEmpty then pySplitAux [] cs
      else acc.reverse :: pySplitAux [] cs
    else pySplitAux (c :: acc) cs

/-- Python `str.split()` with no argument: split on runs of whitespace,
dropping empty tokens. -/
def pySplit (l : List Char) : List (List Char) := pySplitAux [] l

/-- Split a character list at its first newline: returns the newline-free
front part and everything after that newline. -/
def splitFirstNL : List Char → Option (List Char × List Char)
  | [] => none
  | c :: cs =>
    if c = '\n' then some ([], cs)
    else
      match splitFirstNL cs with
      | some (a, b) => some (c :: a, b)
      | none => none

/-- Find the first occurrence of the closing sequence `"\n```"`: returns the
part before it (the regex body capture `(.*?)`) and the remainder after the
closing fence.  This realises the non-greedy search of `(.*?)\n&#96;&#96;&#96;`. -/
def findClose : List Char → Option (List Char × List Char)
  | [] => none
  | c :: cs =>
    if c = '\n' ∧ cs.take 3 = fenceMarker then some ([], cs.drop 3)
    else
      match findClose cs with
      | some (b, r) => some (c :: b, r)
      | none => none

/-- Match `(.+?)\n(.*?)\n&#96;&#96;&#96;` under `re.DOTALL` semantics: the
non-greedy `(.+?)` takes the shortest non-empty prefix ending just before a
newline such that the rest still closes.  (If the closing sequence does not
occur after the first admissible newline it occurs after no later one, so
taking the first newline at index ≥ 1 is faithful to the backtracking
search.)  Returns (path capture, code capture, rest of input). -/
def matchBody : List Char → Option (List Char × List Char × List Char)
  | [] => none
  | c :: cs =>
    match splitFirstNL cs with
    | none => none
    | some (a, b) =>
      match findClose b with
      | none => none
      | some (code, rest) => some (c :: a, code, rest)

/-- Match the optional greedy group `(?:\w+:)?`: it can only succeed by taking
the maximal run of word characters when that run is non-empty and immediately
followed by a colon. -/
def dropLangTag (l : List Char) : Option (List Char) :=
  let run := l.takeWhile isWordChar
  if run.isEmpty then none
  else if (l.drop run.length).take 1 = [':'] then some (l.drop (run.length + 1))
  else none

/-- Match the full pattern `&#96;&#96;&#96;(?:\w+:)?(.+?)\n(.*?)\n&#96;&#96;&#96;`
at the head of the input.  The greedy optional group is tried first; if the
rest of the pattern fails with the language tag consumed, the engine backtracks
and retries with the group matching the empty string. -/
def matchFence (l : List Char) : Option (List Char × List Char × List Char) :=
  if l.take 3 = fenceMarker then
    let t := l.drop 3
    match dropLangTag t with
    | some t1 =>
      match matchBody t1 with
      | some res => some res
      | none => matchBody t
    | none => matchBody t
  else none

/-- Fuelled scanner realising `re.findall`: try to match at each position,
resume after the end of each match.  Each step consumes at least one input
character (a successful match consumes at least nine), so fuel equal to the
input length never runs out. -/
def scanAux : Nat → List Char → List (List Char × List Char)
  | 0, _ => []
  | _ + 1, [] => []
  | fuel + 1, c :: t =>
    match matchFence (c :: t) with
    | some (p, code, rest) => (p, code) :: scanAux fuel rest
    | none => scanAux fuel t

/-- All matches of the code-block regex in `l`, in order of occurrence, as
(path capture, code capture) pairs — the model of `pattern.findall(content)`. -/
def scan (l : List Char) : List (List Char × List Char) := scanAux l.length l

section Dict

variable {α β : Type} [DecidableEq α]

/-- Value of the first entry with the given key — Python `dict` lookup on the
association-list model. -/
def alookup (k : α) : List (α × β) → Option β
  | [] => none
  | p :: ps => if p.1 = k then some p.2 else alookup k ps

/-- Value of the last entry with the given key in a raw entry list. -/
def lastLookup (k : α) : List (α × β) → Option β
  | [] => none
  | p :: ps =>
    match lastLookup k ps with
    | some v => some v
    | none => if p.1 = k then some p.2 else none

/-- Python `dict` assignment `d[k] = v`: overwrite the value in place when the
key is present (keeping its position), otherwise append the new entry. -/
def dictInsert (m : List (α × β)) (k : α) (v : β) : List (α × β) :=
  if k ∈ m.map Prod.fst then m.map (fun p => if p.1 = k then (k, v) else p)
  else m ++ [(k, v)]

/-- Insert a list of entries into a dict, left to right. -/
def foldIns (m : List (α × β)) (l : List (α × β)) : List (α × β) :=
  l.foldl (fun acc e => dictInsert acc e.1 e.2) m

/-- Keep the first occurrence of every element not already in `seen`,
in order. -/
def firstSeenFrom (seen : List α) : List α → List α
  | [] => []
  | k :: ks =>
    if k ∈ seen then firstSeenFrom seen ks
    else k :: firstSeenFrom (k :: seen) ks

/-- First-seen deduplication of a list. -/
def firstSeen (l : List α) : List α := firstSeenFrom [] l

/-- Number of occurrences of `k` in a list (explicit recursion, kept
evaluable). -/
def countKey (k : α) : List α → Nat
  | [] => 0
  | x :: xs => (if x = k then 1 else 0) + countKey k xs

end Dict

/-- The path-likeness test of `_extract_code_blocks`:
`'/' in file_path or '\\' in file_path or '.' in file_path`. -/
def isPathLike (l : List Char) : Bool :=
  l.contains '/' || l.contains '\\' || l.contains '.'

/-- Strip both components of a raw regex match, as the extraction loop does
(`path.strip()`, `code.strip()`). -/
def stripEntry (pc : List Char × List Char) : List Char × List Char :=
  (pyStrip pc.1, pyStrip pc.2)

/-- Shallow embedding of `CodeCommands._extract_code_blocks`: run the regex
over the response text, keep matches whose stripped path capture contains a
path separator or a dot, and collect them into an insertion-ordered dict with
last-write-wins overwriting. -/
def extractCodeBlocks (content : List Char) : List (List Char × List Char) :=
  (scan content).foldl
    (fun acc pc =>
      if isPathLike (pyStrip pc.1) then dictInsert acc (pyStrip pc.1) (pyStrip pc.2)
      else acc) []

/-- The stripped, path-like matches of the regex, in order of occurrence: the
entries that `_extract_code_blocks` actually inserts. -/
def goodEntries (content : List Char) : List (List Char × List Char) :=
  ((scan content).map stripEntry).filter (fun e => isPathLike e.1)

/-- The collaborator and session calls that `CommandHandler.handle` can
dispatch to (`actions`, `display` and `stubs` modules). -/
inductive SessionCall where
  | addFileToContext : List Char → SessionCall
  | refreshRepoContext : SessionCall
  | clearHistory : SessionCall
  | showRepositoryStats : SessionCall
  | switchModel : List Char → SessionCall
  | saveConversation : List Char → SessionCall
  | handleNewFile : List Char → SessionCall
  | handleSaveLastCode : List Char → SessionCall
  | handleGitAdd : List (List Char) → SessionCall
  | handleGitCommit : List Char → SessionCall
  | handleGitPush : SessionCall
  deriving DecidableEq

/-- Observable outcome of one `handle` call: console messages printed and
collaborator/session calls made. -/
structure HandleResult where
  prints : List (List Char)
  calls : List SessionCall
  deriving DecidableEq

def fileCmd : List Char := "file".toList
def refreshCmd : List Char := "refresh".toList
def clearCmd : List Char := "clear".toList
def filesCmd : List Char := "files".toList
def repoCmd : List Char := "repo".toList
def modelCmd : List Char := "model".toList
def saveConvCmd : List Char := "save_conversation".toList
def newCmd : List Char := "new".toList
def saveCmd : List Char := "save".toList
def gitAddCmd : List Char := "git_add".toList
def gitCommitCmd : List Char := "git_commit".toList
def gitPushCmd : List Char := "git_push".toList

def missingFileMsg : List Char := "Error: Missing file path".toList
def refreshMsg : List Char := "Refreshing repository context...".toList
def filesListMsg : List Char := "files in context".toList
def unknownPre : List Char := "Unknown command: /".toList
def helpMsg : List Char := "help".toList
def execErrPre : List Char := "Error executing command: ".toList
def indexErrMsg : List Char := "IndexError: list index out of range".toList

/-- Python `' '.join(args)`. -/
def joinSpace : List (List Char) → List Char
  | [] => []
  | [x] => x
  | x :: y :: ys => x ++ ' ' :: joinSpace (y :: ys)

/-- Run one collaborator call inside the handler's `try` block: an exception
raised by the call is caught and reported (`except Exception as e`). -/
def invoke (act : SessionCall → Except (List Char) Unit) (pre : List (List Char))
    (a : SessionCall) : HandleResult :=
  match act a with
  | Except.ok _ => ⟨pre, [a]⟩
  | Except.error e => ⟨pre ++ [execErrPre ++ e], [a]⟩

/-- The fall-through branch of the dispatcher: print the unknown-command
message and the help text, call nothing. -/
def unknownRes (cmd : List Char) : HandleResult :=
  ⟨[unknownPre ++ cmd, helpMsg], []⟩

/-- The `if/elif` dispatch chain of `CommandHandler.handle`.  A branch guarded
by `cmd == X and args` whose `args` is empty fails its guard and falls through
to the unknown-command branch (no other guard can match the same token), which
the nested match realises directly. -/
def dispatch (act : SessionCall → Except (List Char) Unit) (cmd : List Char)
    (args : List (List Char)) : HandleResult :=
  if cmd = fileCmd then
    match args with
    | [] => ⟨[missingFileMsg], []⟩
    | a :: _ => invoke act [] (SessionCall.addFileToContext a)
  else if cmd = refreshCmd then invoke act [refreshMsg] SessionCall.refreshRepoContext
  else if cmd = clearCmd then invoke act [] SessionCall.clearHistory
  else if cmd = filesCmd then ⟨[filesListMsg], []⟩
  else if cmd = repoCmd then invoke act [] SessionCall.showRepositoryStats
  else if cmd = modelCmd then
    match args with
    | [] => unknownRes cmd
    | a :: _ => invoke act [] (SessionCall.switchModel a)
  else if cmd = saveConvCmd then
    match args with
    | [] => unknownRes cmd
    | a :: _ => invoke act [] (SessionCall.saveConversation a)
  else if cmd = newCmd then
    match args with
    | [] => unknownRes cmd
    | a :: _ => invoke act [] (SessionCall.handleNewFile a)
  else if cmd = saveCmd then
    match args with
    | [] => unknownRes cmd
    | a :: _ => invoke act [] (SessionCall.handleSaveLastCode a)
  else if cmd = gitAddCmd then
    match args with
    | [] => unknownRes cmd
    | a :: rest => invoke act [] (SessionCall.handleGitAdd (a :: rest))
  else if cmd = gitCommitCmd then
    match args with
    | [] => unknownRes cmd
    | a :: rest => invoke act [] (SessionCall.handleGitCommit (joinSpace (a :: rest)))
  else if cmd = gitPushCmd then invoke act [] SessionCall.handleGitPush
  else unknownRes cmd

/-- Shallow embedding of `CommandHandler.handle`.  The token parsing
(`parts = command_str[1:].split(); cmd = parts[0].lower()`) happens before the
`try` block, so when the split yields no token the `parts[0]` access raises an
`IndexError` that propagates to the caller. -/
def handle (act : SessionCall → Except (List Char) Unit) (s : List Char) :
    Except (List Char) HandleResult :=
  match pySplit (s.drop 1) with
  | [] => Except.error indexErrMsg
  | p :: rest => Except.ok (dispatch act (pyLower p) rest)

/-- Did an `Except` computation succeed? -/
def okB {ε A : Type} : Except ε A → Bool
  | Except.ok _ => true
  | Except.error _ => false

/-- Observable outcome of `_display_and_process_response` after extraction:
which file the full response was saved to (no-blocks branch), which paths were
written successfully, which writes failed with a `FileServiceError`, which
paths were handed to `git add_file`, whether a commit and push happened, and
whether the batch apply confirmation was prompted. -/
structure ApplyOutcome where
  savedFull : Option (List Char)
  written : List (List Char)
  writeFailed : List (List Char)
  staged : List (List Char)
  committed : Bool
  pushed : Bool
  applyPrompted : Bool
  deriving DecidableEq

/-- The apply loop of `_display_and_process_response`: for each code block in
dict order call `_apply_code_changes`, which catches a failing write
(`FileServiceError`) for that one file and reports it, letting the loop
continue.  Returns (successfully written paths, failed paths), each in
iteration order. -/
def applyLoop (wr : List Char → Except (List Char) Unit)
    (cbs : List (List Char × List Char)) :
    List (List Char) × List (List Char) :=
  cbs.foldl
    (fun acc pc =>
      match wr pc.1 with
      | Except.ok _ => (acc.1 ++ [pc.1], acc.2)
      | Except.error _ => (acc.1, acc.2 ++ [pc.1])) ([], [])

/-- Shallow embedding of the control flow of
`CodeCommands._display_and_process_response` after the response panel is
printed.  Oracles: `wr` is the file write collaborator (by path);
`confirmSaveFull`, `confirmApply`, `confirmInit`, `confirmCommit` are the
user's answers to the successive `click.confirm` prompts; `saveName` is the
file name prompted for in the no-blocks branch; `isRepo` is the git
repository check.  Diff display (`_show_file_diff`) only renders and is not
modelled.  A failing write of the full-response file propagates out of the
method (it is not wrapped in a `try`), modelled as `Except.error`. -/
def processResponse (wr : List Char → Except (List Char) Unit)
    (confirmSaveFull : Bool) (saveName : List Char) (confirmApply : Bool)
    (isRepo : Bool) (confirmInit : Bool) (confirmCommit : Bool)
    (content : List Char) (applyChanges : Bool) :
    Except (List Char) ApplyOutcome :=
  let cbs := extractCodeBlocks content
  if cbs.isEmpty then
    if confirmSaveFull then
      match wr saveName with
      | Except.ok _ => Except.ok ⟨some saveName, [], [], [], false, false, false⟩
      | Except.error e => Except.error e
    else Except.ok ⟨none, [], [], [], false, false, false⟩
  else if applyChanges = false ∧ confirmApply = false then
    Except.ok ⟨none, [], [], [], false, false, true⟩
  else
    let wf := applyLoop wr cbs
    if isRepo = false ∧ confirmInit = false then
      Except.ok ⟨none, wf.1, wf.2, [], false, false, !applyChanges⟩
    else if confirmCommit then
      Except.ok ⟨none, wf.1, wf.2, cbs.map Prod.fst, true, true, !applyChanges⟩
    else
      Except.ok ⟨none, wf.1, wf.2, [], false, false, !applyChanges⟩

def writtenOf : Except (List Char) ApplyOutcome → List (List Char)
  | Except.ok r => r.written
  | Except.error _ => []

def failedOf : Except (List Char) ApplyOutcome → List (List Char)
  | Except.ok r => r.writeFailed
  | Except.error _ => []

def stagedOf : Except (List Char) ApplyOutcome → List (List Char)
  | Except.ok r => r.staged
  | Except.error _ => []

def promptedOf : Except (List Char) ApplyOutcome → Bool
  | Except.ok r => r.applyPrompted
  | Except.error _ => false

def warnPre : List Char := "Warning: Could not read ".toList
def sepMsg : List Char := ": ".toList

/-- The warning printed for a context file whose read failed. -/
def warnMsg (f e : List Char) : List Char := warnPre ++ f ++ sepMsg ++ e

/-- Shallow embedding of the context-file reading of
`CodeCommands._prepare_request` (`asyncio.gather(..., return_exceptions=True)`
followed by the collection loop): each file is read independently by the
oracle `rd`; a failed read appends a warning and is skipped, a successful read
is inserted into the `file_contents` dict.  Returns (file_contents,
warnings). -/
def readContextFiles (rd : List Char → Except (List Char) (List Char))
    (files : List (List Char)) :
    List (List Char × List Char) × List (List Char) :=
  files.foldl
    (fun acc f =>
      match rd f with
      | Except.ok c => (dictInsert acc.1 f c, acc.2)
      | Except.error e => (acc.1, acc.2 ++ [warnMsg f e])) ([], [])

def contentOf : Except (List Char) (List Char) → List Char
  | Except.ok c => c
  | Except.error _ => []

def errOf : Except (List Char) (List Char) → List Char
  | Except.ok _ => []
  | Except.error e => e

/-- The successful context reads, as dict entries in file-list order. -/
def goodReads (rd : List Char → Except (List Char) (List Char))
    (files : List (List Char)) : List (List Char × List Char) :=
  (files.filter (fun f => okB (rd f))).map (fun f => (f, contentOf (rd f)))

/-- The warnings produced by the failed context reads, in file-list order. -/
def readWarns (rd : List Char → Except (List Char) (List Char))
    (files : List (List Char)) : List (List Char) :=
  (files.filter (fun f => !okB (rd f))).map (fun f => warnMsg f (errOf (rd f)))

/-- The dispatcher commands that require an argument. -/
def requiredArgCmds : List (List Char) :=
  [fileCmd, modelCmd, saveConvCmd, newCmd, saveCmd, gitAddCmd, gitCommitCmd]

/-- A collaborator oracle on which every call succeeds. -/
def actOk : SessionCall → Except (List Char) Unit := fun _ => Except.ok ()

def boomMsg : List Char := "boom".toList

/-- A collaborator oracle on which every call raises an exception. -/
def actBoom : SessionCall → Except (List Char) Unit := fun _ => Except.error boomMsg

def xArg : List Char := "x".toList
def upperFILE : List Char := "FILE".toList
def slashOnly : List Char := "/".toList
def modelNoArg : List Char := "/model".toList
def fileUpper : List Char := "/FILE x".toList
def fileLower : List Char := "/file x".toList

def srcAPy : List Char := "src/a.py".toList
def newW : List Char := "new".toList
def c2Input : List Char :=
  "```python:src/a.py\nold\n```\n```python:src/a.py\nnew\n```".toList

def aPy : List Char := "a.py".toList
def codeW : List Char := "code".toList
def c7Input : List Char := "```\na.py\ncode\n```".toList

def bTxt : List Char := "b.txt".toList
def deniedMsg : List Char := "denied".toList
def saveNameD : List Char := "ai_suggestion.txt".toList
def c4Input : List Char := "```python:a.py\nx\n```\n```python:b.txt\ny\n```".toList

/-- A write oracle that fails (permission denied) exactly on `a.py`. -/
def wrCex : List Char → Except (List Char) Unit :=
  fun p => if p = aPy then Except.error deniedMsg else Except.ok ()

def bPy : List Char := "b.py".toList
def cPy : List Char := "c.py".toList
def c5Input : List Char :=
  "```python:a.py\n1\n```\n```python:b.py\n2\n```\n```python:c.py\n3\n```".toList

/-- A write oracle that fails exactly on `b.py`. -/
def wrC5 : List Char → Except (List Char) Unit :=
  fun p => if p = bPy then Except.error deniedMsg else Except.ok ()

def dataW : List Char := "data".toList
def c8Files : List (List Char) := [aPy, bPy]

/-- A read oracle that fails exactly on `b.py`. -/
def rdC8 : List Char → Except (List Char) (List Char) :=
  fun f => if f = bPy then Except.error deniedMsg else Except.ok dataW

section DictLemmas

variable {α β : Type} [DecidableEq α]

theorem mem_firstSeenFrom (k : α) (l : List α) :
    ∀ seen : List α, k ∈ firstSeenFrom seen l ↔ k ∈ l ∧ k ∉ seen := by
  induction l with
  | nil => intro seen; simp [firstSeenFrom]
  | cons x xs ih =>
    intro seen
    by_cases hx : x ∈ seen
    · rw [firstSeenFrom, if_pos hx, ih]
      constructor
      · rintro ⟨h1, h2⟩
        exact ⟨List.mem_cons_of_mem x h1, h2⟩
      · rintro ⟨h1, h2⟩
        rcases List.mem_cons.mp h1 with h | h
        · exact absurd (h ▸ hx) h2
        · exact ⟨h, h2⟩
    · rw [firstSeenFrom, if_neg hx]
      constructor
      · intro h
        rcases List.mem_cons.mp h with h | h
        · subst h
          exact ⟨List.mem_cons_self k xs, hx⟩
        · rcases (ih (x :: seen)).mp h with ⟨h1, h2⟩
          exact ⟨List.mem_cons_of_mem x h1, fun hk => h2 (List.mem_cons_of_mem x hk)⟩
      · rintro ⟨h1, h2⟩
        rcases List.mem_cons.mp h1 with h | h
        · subst h
          exact List.mem_cons_self k _
        · by_cases hkx : k = x
          · subst hkx
            exact List.mem_cons_self k _
          · refine List.mem_cons_of_mem x ((ih (x :: seen)).mpr ⟨h, ?_⟩)
            intro hk
            rcases List.mem_cons.mp hk with h' | h'
            · exact hkx h'
            · exact h2 h'

theorem firstSeenFrom_congr (l : List α) :
    ∀ s1 s2 : List α, (∀ x, x ∈ s1 ↔ x ∈ s2) →
      firstSeenFrom s1 l = firstSeenFrom s2 l := by
  induction l with
  | nil => intro s1 s2 _; rfl
  | cons x xs ih =>
    intro s1 s2 hs
    by_cases hx : x ∈ s1
    · rw [firstSeenFrom, if_pos hx, firstSeenFrom, if_pos ((hs x).mp hx)]
      exact ih s1 s2 hs
    · rw [firstSeenFrom, if_neg hx, firstSeenFrom, if_neg (fun h => hx ((hs x).mpr h))]
      refine congrArg (x :: ·) (ih (x :: s1) (x :: s2) ?_)
      intro y
      simp [List.mem_cons, hs y]

theorem keys_dictInsert (m : List (α × β)) (k : α) (v : β) :
    (dictInsert m k v).map Prod.fst =
      if k ∈ m.map Prod.fst then m.map Prod.fst else m.map Prod.fst ++ [k] := by
  unfold dictInsert
  by_cases h : k ∈ m.map Prod.fst
  · rw [if_pos h, if_pos h, List.map_map]
    apply List.map_congr_left
    intro p _
    by_cases hp : p.1 = k
    · simp [Function.comp, hp]
    · simp [Function.comp, hp]
  · rw [if_neg h, if_neg h, List.map_append]
    rfl

theorem mem_keys_dictInsert (m : List (α × β)) (k : α) (v : β) (q : α) :
    q ∈ (dictInsert m k v).map Prod.fst ↔ q ∈ m.map Prod.fst ∨ q = k := by
  rw [keys_dictInsert]
  by_cases h : k ∈ m.map Prod.fst
  · rw [if_pos h]
    constructor
    · exact Or.inl
    · rintro (h1 | h1)
      · exact h1
      · exact h1 ▸ h
  · rw [if_neg h]
    simp [List.mem_append]

theorem keys_foldIns (l : List (α × β)) :
    ∀ m : List (α × β), (foldIns m l).map Prod.fst =
      m.map Prod.fst ++ firstSeenFrom (m.map Prod.fst) (l.map Prod.fst) := by
  induction l with
  | nil => intro m; simp [foldIns, firstSeenFrom]
  | cons e es ih =>
    intro m
    have hstep : foldIns m (e :: es) = foldIns (dictInsert m e.1 e.2) es := rfl
    rw [hstep, ih (dictInsert m e.1 e.2), keys_dictInsert]
    by_cases h : e.1 ∈ m.map Prod.fst
    · rw [if_pos h, List.map_cons, firstSeenFrom, if_pos h]
    · rw [if_neg h, List.map_cons, firstSeenFrom, if_neg h, List.append_assoc,
        List.singleton_append]
      refine congrArg (m.map Prod.fst ++ ·) (congrArg (e.1 :: ·) ?_)
      apply firstSeenFrom_congr
      intro x
      simp [List.mem_append, List.mem_cons, or_comm]

theorem mem_keys_foldIns (l m : List (α × β)) (k : α) :
    k ∈ (foldIns m l).map Prod.fst ↔ k ∈ m.map Prod.fst ∨ k ∈ l.map Prod.fst := by
  rw [keys_foldIns, List.mem_append, mem_firstSeenFrom]
  constructor
  · rintro (h | ⟨h1, _⟩)
    · exact Or.inl h
    · exact Or.inr h1
  · rintro (h | h)
    · exact Or.inl h
    · by_cases hm : k ∈ m.map Prod.fst
      · exact Or.inl hm
      · exact Or.inr ⟨h, hm⟩

theorem countKey_firstSeenFrom (k : α) (l : List α) :
    ∀ seen : List α, countKey k (firstSeenFrom seen l) =
      if k ∈ l ∧ k ∉ seen then 1 else 0 := by
  induction l with
  | nil => intro seen; simp [firstSeenFrom, countKey]
  | cons x xs ih =>
    intro seen
    by_cases hx : x ∈ seen
    · rw [firstSeenFrom, if_pos hx, ih seen]
      by_cases hk : k ∈ seen
      · simp [hk]
      · have hmem : (k ∈ x :: xs) ↔ k ∈ xs := by
          constructor
          · intro h
            rcases List.mem_cons.mp h with h | h
            · exact absurd (h ▸ hx) hk
            · exact h
          · exact List.mem_cons_of_mem x
        simp [hk, hmem]
    · rw [firstSeenFrom, if_neg hx, countKey, ih (x :: seen)]
      by_cases hkx : x = k
      · subst hkx
        simp [hx, List.mem_cons]
      · have hkx' : ¬ k = x := fun h => hkx h.symm
        by_cases hk : k ∈ seen
        · simp [hkx, hkx', hk, List.mem_cons]
        · simp [hkx, hkx', hk, List.mem_cons]

theorem mem_of_countKey_pos (k : α) (l : List α) (h : 0 < countKey k l) : k ∈ l := by
  induction l with
  | nil => simp [countKey] at h
  | cons x xs ih =>
    by_cases hx : x = k
    · exact hx ▸ List.mem_cons_self x xs
    · rw [countKey, if_neg hx, Nat.zero_add] at h
      exact List.mem_cons_of_mem x (ih h)

theorem alookup_append (k : α) (m1 m2 : List (α × β)) :
    alookup k (m1 ++ m2) =
      match alookup k m1 with
      | some v => some v
      | none => alookup k m2 := by
  induction m1 with
  | nil => simp [alookup]
  | cons p ps ih =>
    by_cases hp : p.1 = k
    · simp [alookup, hp]
    · simp [alookup, hp, ih]

theorem alookup_eq_none_iff (k : α) (m : List (α × β)) :
    alookup k m = none ↔ k ∉ m.map Prod.fst := by
  induction m with
  | nil => simp [alookup]
  | cons p ps ih =>
    by_cases hp : p.1 = k
    · simp [alookup, hp]
    · have hp' : ¬ k = p.1 := fun h => hp h.symm
      simp [alookup, hp, ih, hp']

theorem alookup_replaceKey (m : List (α × β)) (k : α) (v : β) (q : α) :
    alookup q (m.map (fun p => if p.1 = k then (k, v) else p)) =
      if q = k then
        match alookup k m with
        | some _ => some v
        | none => none
      else alookup q m := by
  induction m with
  | nil => simp [alookup]
  | cons p ps ih =>
    by_cases hp : p.1 = k
    · by_cases hq : q = k
      · subst hq
        simp [alookup, hp]
      · have hpq : ¬ p.1 = q := fun h => hq (h ▸ hp ▸ rfl)
        have hkq : ¬ k = q := fun h => hq h.symm
        simp [alookup, hp, hq, hkq, hpq, ih]
    · by_cases hpq : p.1 = q
      · have hq : ¬ q = k := fun h => hp (hpq ▸ h)
        simp [alookup, hp, hpq, hq]
      · simp [alookup, hp, hpq, ih]

theorem alookup_dictInsert (m : List (α × β)) (k : α) (v : β) (q : α) :
    alookup q (dictInsert m k v) = if q = k then some v else alookup q m := by
  unfold dictInsert
  by_cases hm : k ∈ m.map Prod.fst
  · rw [if_pos hm, alookup_replaceKey]
    by_cases hq : q = k
    · rw [if_pos hq, if_pos hq]
      have hsome : ∃ w, alookup k m = some w := by
        cases h : alookup k m
        · exact absurd ((alookup_eq_none_iff k m).mp h) (not_not_intro hm)
        · exact ⟨_, rfl⟩
      obtain ⟨w, hw⟩ := hsome
      rw [hw]
    · rw [if_neg hq, if_neg hq]
  · rw [if_neg hm, alookup_append]
    by_cases hq : q = k
    · subst hq
      rw [(alookup_eq_none_iff q m).mpr hm]
      simp [alookup]
    · have hq' : ¬ k = q := fun h => hq h.symm
      cases h : alookup q m
      · simp [alookup, hq', hq]
      · simp [hq]

theorem alookup_foldIns (l : List (α × β)) :
    ∀ (m : List (α × β)) (k : α), alookup k (foldIns m l) =
      match lastLookup k l with
      | some v => some v
      | none => alookup k m := by
  induction l with
  | nil => intro m k; simp [foldIns, lastLookup]
  | cons e es ih =>
    intro m k
    have hstep : foldIns m (e :: es) = foldIns (dictInsert m e.1 e.2) es := rfl
    rw [hstep, ih (dictInsert m e.1 e.2)]
    cases h : lastLookup k es
    · simp only [lastLookup, h, alookup_dictInsert]
      by_cases hk : k = e.1
      · subst hk
        simp
      · have hk' : ¬ e.1 = k := fun h' => hk h'.symm
        simp [hk, hk']
    · simp only [lastLookup, h]

theorem lastLookup_map_pair_of_not_mem (g : α → β) (f : α) (l : List α)
    (h : f ∉ l) :
    lastLookup f (l.map (fun x => (x, g x))) = none := by
  induction l with
  | nil => rfl
  | cons x xs ih =>
    have hx : ¬ x = f := fun h' => h (h' ▸ List.mem_cons_self x xs)
    have hxs : f ∉ xs := fun h' => h (List.mem_cons_of_mem x h')
    simp [lastLookup, ih hxs, hx]

theorem lastLookup_map_pair (g : α → β) (f : α) (l : List α) (h : f ∈ l) :
    lastLookup f (l.map (fun x => (x, g x))) = some (g f) := by
  induction l with
  | nil => simp at h
  | cons x xs ih =>
    by_cases hf : f ∈ xs
    · simp [lastLookup, ih hf]
    · rcases List.mem_cons.mp h with h1 | h1
      · subst h1
        simp [lastLookup, lastLookup_map_pair_of_not_mem g f xs hf]
      · exact absurd h1 hf

end DictLemmas

theorem foldl_ins_filter (l : List (List Char × List Char)) :
    ∀ m : List (List Char × List Char),
      l.foldl (fun acc pc =>
        if isPathLike (pyStrip pc.1) then dictInsert acc (pyStrip pc.1) (pyStrip pc.2)
        else acc) m
      = foldIns m ((l.map stripEntry).filter (fun e => isPathLike e.1)) := by
  induction l with
  | nil => intro m; rfl
  | cons pc rest ih =>
    intro m
    by_cases h : isPathLike (pyStrip pc.1) = true
    · simp only [List.foldl_cons, if_pos h, List.map_cons, List.filter_cons]
      rw [ih]
      simp [stripEntry, h, foldIns]
    · simp only [List.foldl_cons, if_neg h, List.map_cons, List.filter_cons]
      rw [ih]
      simp [stripEntry, h]

theorem extract_eq_foldIns (s : List Char) :
    extractCodeBlocks s = foldIns [] (goodEntries s) := by
  unfold extractCodeBlocks goodEntries
  exact foldl_ins_filter (scan s) []

theorem applyLoop_foldl (wr : List Char → Except (List Char) Unit)
    (cbs : List (List Char × List Char)) :
    ∀ w f : List (List Char),
      cbs.foldl (fun acc pc =>
        match wr pc.1 with
        | Except.ok _ => (acc.1 ++ [pc.1], acc.2)
        | Except.error _ => (acc.1, acc.2 ++ [pc.1])) (w, f)
      = (w ++ (cbs.filter (fun pc => okB (wr pc.1))).map Prod.fst,
         f ++ (cbs.filter (fun pc => !okB (wr pc.1))).map Prod.fst) := by
  induction cbs with
  | nil => intro w f; simp
  | cons pc rest ih =>
    intro w f
    cases h : wr pc.1 with
    | ok u =>
      simp only [List.foldl_cons, h]
      rw [ih]
      simp [okB, h, List.filter_cons]
    | error e =>
      simp only [List.foldl_cons, h]
      rw [ih]
      simp [okB, h, List.filter_cons]

theorem applyLoop_spec (wr : List Char → Except (List Char) Unit)
    (cbs : List (List Char × List Char)) :
    applyLoop wr cbs =
      ((cbs.filter (fun pc => okB (wr pc.1))).map Prod.fst,
       (cbs.filter (fun pc => !okB (wr pc.1))).map Prod.fst) := by
  unfold applyLoop
  rw [applyLoop_foldl]
  simp

theorem readContext_foldl (rd : List Char → Except (List Char) (List Char))
    (files : List (List Char)) :
    ∀ (m : List (List Char × List Char)) (w : List (List Char)),
      files.foldl (fun acc f =>
        match rd f with
        | Except.ok c => (dictInsert acc.1 f c, acc.2)
        | Except.error e => (acc.1, acc.2 ++ [warnMsg f e])) (m, w)
      = (foldIns m (goodReads rd files), w ++ readWarns rd files) := by
  induction files with
  | nil => intro m w; simp [goodReads, readWarns, foldIns]
  | cons f fs ih =>
    intro m w
    cases h : rd f with
    | ok c =>
      simp only [List.foldl_cons, h]
      rw [ih]
      simp [goodReads, readWarns, okB, h, contentOf, List.filter_cons, foldIns]
    | error e =>
      simp only [List.foldl_cons, h]
      rw [ih]
      simp [goodReads, readWarns, okB, h, errOf, List.filter_cons]

theorem readContextFiles_eq (rd : List Char → Except (List Char) (List Char))
    (files : List (List Char)) :
    readContextFiles rd files = (foldIns [] (goodReads rd files), readWarns rd files) := by
  unfold readContextFiles
  rw [readContext_foldl]
  simp

/-- Claim C1: for every input text, a fenced segment is treated as a
file-targeted code block if and only if its hint token, stripped of
surrounding whitespace, contains a path separator or a dot — a stripped hint
capture appears as a key of the extracted map exactly when it is path-like and
produced by some regex match, so segments whose hint is a bare language name
contribute nothing to the returned map. -/
theorem c1_extract_pathlike_iff (s k : List Char) :
    k ∈ (extractCodeBlocks s).map Prod.fst ↔
      (isPathLike k = true ∧ ∃ pc ∈ scan s, pyStrip pc.1 = k) := by
  rw [extract_eq_foldIns, mem_keys_foldIns]
  constructor
  · intro h
    rcases h with h | h
    · simp at h
    · unfold goodEntries at h
      rcases List.mem_map.mp h with ⟨e, he, hfst⟩
      rcases List.mem_filter.mp he with ⟨he2, hpl⟩
      rcases List.mem_map.mp he2 with ⟨pc, hpc, hse⟩
      refine ⟨?_, pc, hpc, ?_⟩
      · rw [← hfst]
        exact hpl
      · rw [← hse] at hfst
        exact hfst
  · rintro ⟨hpl, pc, hpc, hstr⟩
    right
    unfold goodEntries
    apply List.mem_map.mpr
    refine ⟨stripEntry pc, List.mem_filter.mpr ⟨List.mem_map.mpr ⟨pc, hpc, rfl⟩, ?_⟩, hstr⟩
    show isPathLike (pyStrip pc.1) = true
    rw [hstr]
    exact hpl

/-- Claim C2: when the same stripped path occurs as the hint of two or more
regex matches, the extracted map has exactly one entry for that path, its
value is the last matching block's stripped content, and the map's key order
is the first-seen order of all path-like matches (so the duplicated path sits
at its first occurrence's position). -/
theorem c2_extract_dup_last_wins (s k : List Char)
    (h : 2 ≤ countKey k ((goodEntries s).map Prod.fst)) :
    countKey k ((extractCodeBlocks s).map Prod.fst) = 1
    ∧ alookup k (extractCodeBlocks s) = lastLookup k (goodEntries s)
    ∧ (extractCodeBlocks s).map Prod.fst = firstSeen ((goodEntries s).map Prod.fst) := by
  have hmem : k ∈ (goodEntries s).map Prod.fst :=
    mem_of_countKey_pos _ _ (lt_of_lt_of_le (by decide) h)
  have hkeys : (extractCodeBlocks s).map Prod.fst
      = firstSeen ((goodEntries s).map Prod.fst) := by
    rw [extract_eq_foldIns, keys_foldIns]
    simp [firstSeen]
  refine ⟨?_, ?_, hkeys⟩
  · rw [hkeys]
    unfold firstSeen
    rw [countKey_firstSeenFrom]
    simp [hmem]
  · rw [extract_eq_foldIns, alookup_foldIns]
    cases hl : lastLookup k (goodEntries s)
    · simp [alookup]
    · simp

/-- Witness for claim C2: in a response containing `src/a.py` twice, the
extracted map has a single entry for `src/a.py` and its content is the second
block's content. -/
theorem c2_witness :
    countKey srcAPy ((extractCodeBlocks c2Input).map Prod.fst) = 1
    ∧ alookup srcAPy (extractCodeBlocks c2Input) = some newW := by
  have h := c2_extract_dup_last_wins c2Input srcAPy (by decide)
  refine ⟨h.1, ?_⟩
  rw [h.2.1]
  decide

/-- Claim C7 (code-bug evaluation): on a fence whose opening fence line
carries no hint token at all, the extractor still returns a file block — the
DOTALL hint capture `(.+?)` spans the newline after the bare fence and picks
up the body's first line `a.py` as the path, contradicting the specified
behaviour that a hintless fence is ignored regardless of its body. -/
theorem c7_no_hint_fence_extracted :
    extractCodeBlocks c7Input = [(aPy, codeW)] := by decide

/-- Claim C3: every dispatcher command that requires an argument (file, model,
save_conversation, new, save, git_add, git_commit), when invoked with that
argument missing, reports a user-visible error message, performs no session
mutation and no collaborator call, and does not throw to the caller of
handle. -/
theorem c3_missing_arg_no_action (act : SessionCall → Except (List Char) Unit)
    (s c : List Char) (h1 : pySplit (s.drop 1) = [c])
    (h2 : pyLower c ∈ requiredArgCmds) :
    ∃ r, handle act s = Except.ok r ∧ r.calls = [] ∧ r.prints ≠ [] := by
  have hh : handle act s = Except.ok (dispatch act (pyLower c) []) := by
    unfold handle
    rw [h1]
  simp only [requiredArgCmds, List.mem_cons, List.not_mem_nil, or_false] at h2
  rcases h2 with h | h | h | h | h | h | h <;>
    (rw [h] at hh; exact ⟨_, hh, rfl, List.cons_ne_nil _ _⟩)

/-- Witness for claim C3: the command "/model" with no argument returns
normally, makes no call, and prints an error message. -/
theorem c3_witness :
    ∃ r, handle actOk modelNoArg = Except.ok r ∧ r.calls = [] ∧ r.prints ≠ [] :=
  c3_missing_arg_no_action actOk modelNoArg modelCmd (by decide) (by decide)

/-- Counterexample to claim C9: the empty command "/" makes handle raise an
uncaught IndexError — the token access parts[0] happens before the try block,
so this exception propagates to the caller instead of being reported. -/
theorem c9_counterexample : handle actOk slashOnly = Except.error indexErrMsg := rfl

/-- Claim C9 (amended): whenever the command string contains at least one
token after the leading slash, handle never propagates an exception to its
caller — every exception raised by the dispatched collaborator call is caught
inside the try block and reported; only a token-less command string (such as
"/" alone) raises an uncaught IndexError during parsing. -/
theorem c9_no_throw_with_token (act : SessionCall → Except (List Char) Unit)
    (s p : List Char) (rest : List (List Char))
    (h : pySplit (s.drop 1) = p :: rest) :
    ∃ r, handle act s = Except.ok r := by
  refine ⟨dispatch act (pyLower p) rest, ?_⟩
  unfold handle
  rw [h]

/-- Witness for amended claim C9: "/file x" under a collaborator that raises
on every call still returns normally and reports the error message. -/
theorem c9_witness :
    ∃ r, handle actBoom fileLower = Except.ok r ∧ r.prints ≠ [] := by
  obtain ⟨r, hr⟩ := c9_no_throw_with_token actBoom fileLower fileCmd [xArg] (by decide)
  refine ⟨r, hr, ?_⟩
  have h2 : handle actBoom fileLower
      = Except.ok ⟨[execErrPre ++ boomMsg], [SessionCall.addFileToContext xArg]⟩ := rfl
  rw [hr] at h2
  injection h2 with h3
  rw [h3]
  decide

/-- Claim C10: dispatcher command-token matching is case-insensitive — handle
lowercases the command token before dispatch, so two command strings whose
tokens agree up to case and whose argument lists are identical dispatch to the
same action with identical arguments. -/
theorem c10_case_insensitive (act : SessionCall → Except (List Char) Unit)
    (s1 s2 t1 t2 : List Char) (args : List (List Char))
    (h1 : pySplit (s1.drop 1) = t1 :: args) (h2 : pySplit (s2.drop 1) = t2 :: args)
    (h3 : pyLower t1 = pyLower t2) :
    handle act s1 = handle act s2 := by
  unfold handle
  rw [h1, h2]
  show Except.ok (dispatch act (pyLower t1) args) = Except.ok (dispatch act (pyLower t2) args)
  rw [h3]

/-- Witness for claim C10: "/FILE x" and "/file x" produce identical
results. -/
theorem c10_witness : handle actOk fileUpper = handle actOk fileLower :=
  c10_case_insensitive actOk fileUpper fileLower upperFILE fileCmd [xArg]
    (by decide) (by decide) (by decide)

/-- Counterexample to claim C4: with two extracted blocks `a.py` and `b.txt`
where writing `a.py` fails, the paths handed to git staging are all extracted
paths — including the failed `a.py` — and not the set of successfully written
paths. -/
theorem c4_counterexample :
    stagedOf (processResponse wrCex true saveNameD true true true true c4Input true)
      ≠ writtenOf (processResponse wrCex true saveNameD true true true true c4Input true)
    ∧ stagedOf (processResponse wrCex true saveNameD true true true true c4Input true)
        = [aPy, bTxt]
    ∧ writtenOf (processResponse wrCex true saveNameD true true true true c4Input true)
        = [bTxt] := by decide

/-- Claim C4 (amended): after an apply pass, the set of paths handed to the
git collaborator for staging is the full set of extracted block paths — staged
exactly when blocks exist, applying was confirmed (or auto-applied), the git
repository exists (or was initialised) and the commit was confirmed —
independent of which writes succeeded; otherwise nothing is staged. -/
theorem c4_staged_all_extracted (wr : List Char → Except (List Char) Unit)
    (csf : Bool) (sn : List Char) (ca ir ci cc : Bool) (content : List Char)
    (ac : Bool) :
    stagedOf (processResponse wr csf sn ca ir ci cc content ac) =
      if ((extractCodeBlocks content).isEmpty = false ∧ (ac || ca) = true
          ∧ (ir || ci) = true ∧ cc = true)
      then (extractCodeBlocks content).map Prod.fst else [] := by
  cases hemp : (extractCodeBlocks content).isEmpty <;>
    cases hw : wr sn <;>
      cases ac <;> cases ca <;> cases ir <;> cases ci <;> cases cc <;> cases csf <;>
        simp_all [processResponse, stagedOf]

/-- Claim C5: when the apply pass runs over a ChangeSet, each file's write is
attempted independently — the successfully written paths are exactly those
whose write succeeds and the reported failures are exactly those whose write
raises a FileServiceError, so one file's failure does not prevent the
remaining files from being written and each failure is reported at that file's
granularity. -/
theorem c5_apply_best_effort (wr : List Char → Except (List Char) Unit)
    (csf : Bool) (sn : List Char) (ca ir ci cc : Bool) (content : List Char)
    (ac : Bool) (h1 : (extractCodeBlocks content).isEmpty = false)
    (h2 : (ac || ca) = true) :
    writtenOf (processResponse wr csf sn ca ir ci cc content ac)
      = ((extractCodeBlocks content).filter (fun pc => okB (wr pc.1))).map Prod.fst
    ∧ failedOf (processResponse wr csf sn ca ir ci cc content ac)
      = ((extractCodeBlocks content).filter (fun pc => !okB (wr pc.1))).map Prod.fst := by
  cases ac <;> cases ca <;> cases ir <;> cases ci <;> cases cc <;>
    simp_all [processResponse, writtenOf, failedOf, applyLoop_spec]

/-- Witness for claim C5: three extracted files where writing `b.py` fails —
`a.py` and `c.py` are still written and `b.py` is reported as the failure. -/
theorem c5_witness :
    writtenOf (processResponse wrC5 true saveNameD true true true true c5Input true)
      = [aPy, cPy]
    ∧ failedOf (processResponse wrC5 true saveNameD true true true true c5Input true)
      = [bPy] := by
  have h := c5_apply_best_effort wrC5 true saveNameD true true true true c5Input true
    (by decide) (by decide)
  exact ⟨h.1.trans (by decide), h.2.trans (by decide)⟩

/-- Claim C6: applying the full ChangeSet is gated by a single batch-level
yes/no confirmation — the prompt is shown exactly when the auto-apply flag is
unset, never per file — and when the user declines, no file is written, no
write fails, nothing is staged and no commit or push happens. -/
theorem c6_confirm_gate (wr : List Char → Except (List Char) Unit)
    (csf : Bool) (sn : List Char) (ca ir ci cc : Bool) (content : List Char)
    (ac : Bool) (h : (extractCodeBlocks content).isEmpty = false) :
    promptedOf (processResponse wr csf sn ca ir ci cc content ac) = !ac
    ∧ (ac = false → ca = false →
        processResponse wr csf sn ca ir ci cc content ac
          = Except.ok ⟨none, [], [], [], false, false, true⟩) := by
  cases ac <;> cases ca <;> cases ir <;> cases ci <;> cases cc <;>
    simp_all [processResponse, promptedOf]

/-- Witness for claim C6: with blocks present, auto-apply unset and the user
declining, the prompt was shown and the outcome touches nothing. -/
theorem c6_witness :
    promptedOf (processResponse wrC5 true saveNameD false true true true c5Input false)
      = true
    ∧ processResponse wrC5 true saveNameD false true true true c5Input false
        = Except.ok ⟨none, [], [], [], false, false, true⟩ := by
  have h := c6_confirm_gate wrC5 true saveNameD false true true true c5Input false
    (by decide)
  exact ⟨h.1, h.2 rfl rfl⟩

theorem goodReads_keys (rd : List Char → Except (List Char) (List Char))
    (files : List (List Char)) :
    (goodReads rd files).map Prod.fst = files.filter (fun f => okB (rd f)) := by
  unfold goodReads
  rw [List.map_map]
  simp only [Function.comp_def]
  exact List.map_id _

/-- Claim C8: context files are read as independent operations with all
failures collected — a path is a key of the prepared context mapping exactly
when it was requested and its read succeeds, there is exactly one warning per
failed read, and a successfully read file's content is what the mapping
stores; hence no single read failure aborts request preparation. -/
theorem c8_context_reads (rd : List Char → Except (List Char) (List Char))
    (files : List (List Char)) :
    (∀ f, f ∈ (readContextFiles rd files).1.map Prod.fst ↔
        (f ∈ files ∧ okB (rd f) = true))
    ∧ (readContextFiles rd files).2.length
        = (files.filter (fun f => !okB (rd f))).length
    ∧ (∀ f c, rd f = Except.ok c → f ∈ files →
        alookup f (readContextFiles rd files).1 = some c) := by
  simp only [readContextFiles_eq]
  refine ⟨?_, ?_, ?_⟩
  · intro f
    rw [mem_keys_foldIns]
    simp only [List.map_nil, List.not_mem_nil, false_or]
    rw [goodReads_keys]
    exact List.mem_filter
  · unfold readWarns
    rw [List.length_map]
  · intro f c hok hmem
    have hfil : f ∈ files.filter (fun g => okB (rd g)) :=
      List.mem_filter.mpr ⟨hmem, by rw [hok]; rfl⟩
    have hlast : lastLookup f (goodReads rd files) = some (contentOf (rd f)) := by
      unfold goodReads
      exact lastLookup_map_pair (fun g => contentOf (rd g)) f _ hfil
    rw [alookup_foldIns, hlast]
    simp [hok, contentOf]

/-- Witness for claim C8: requesting `a.py` and `b.py` where reading `b.py`
fails — the mapping holds `a.py` with its content, one warning is emitted, and
the key test for `b.py` agrees with its failed read. -/
theorem c8_witness :
    alookup aPy (readContextFiles rdC8 c8Files).1 = some dataW
    ∧ (readContextFiles rdC8 c8Files).2.length = 1
    ∧ (bPy ∈ (readContextFiles rdC8 c8Files).1.map Prod.fst ↔
        (bPy ∈ c8Files ∧ okB (rdC8 bPy) = true)) := by
  have h := c8_context_reads rdC8 c8Files
  exact ⟨h.2.2 aPy dataW rfl (by decide), h.2.1.trans (by decide), h.1 bPy⟩
